import Mathlib

set_option maxHeartbeats 1000000

/-!
Verification of the `simplebot_clines` caller module (`__init__.py`) of the
Color Lines chat game, together with the serialized game-state format of its
engine.  The engine (`game.py`) and the storage layer (`db.py`) are not part
of the available sources: they are modelled from the specification at their
interface boundary, while the caller functions (`filter_messages`,
`lines_play`, `lines_next`, `_run_turn`) are translated directly from the
Python source.
-/

/-- Modelled from the spec: the caller-facing contract of the Color Lines
engine (`game.py`, absent from the sources).  `load s` models `Board(s)` and
`move b t` models `b.move(t)`, with a raised `ValueError` modelled as
`Except.error ()`.  `exportStr` models `export()`, `result` models
`result()` (`1` is Terminal), `render` models `str(b)` and `nextBallsText`
the "Next: ..." glyph line; `fresh` is `Board()` and `newWith S` is
`Board(old_score=S)`. -/
structure Engine (B : Type) where
  load : String → Except Unit B
  move : B → String → Except Unit B
  next : B → B
  exportStr : B → String
  score : B → Nat
  old_score : B → Nat
  result : B → Nat
  render : B → String
  nextBallsText : B → String
  fresh : B
  newWith : Nat → B

/-- One row of the games table: player address, group chat id, serialized
board (`none` is the no-active-board sentinel stored as SQL `NULL`) and the
player's stored high score. -/
structure GameRow where
  addr : String
  gid : Nat
  board : Option String
  score : Nat
deriving DecidableEq

abbrev Db := List GameRow

/-- Modelled from the spec: `db.get_game_by_gid(gid)` of the storage layer
(`db.py`, absent from the sources) — lookup of a game row by group id. -/
def getGameByGid (db : Db) (gid : Nat) : Option GameRow :=
  db.find? (fun g => g.gid == gid)

/-- Modelled from the spec: `db.get_game_by_addr(addr)` — lookup of a game
row by player address. -/
def getGameByAddr (db : Db) (addr : String) : Option GameRow :=
  db.find? (fun g => g.addr == addr)

/-- Point update of the row keyed by `addr` (addresses are the primary key
of the games table). -/
def updateRow (db : Db) (addr : String) (f : GameRow → GameRow) : Db :=
  db.map (fun g => if g.addr = addr then f g else g)

/-- Modelled from the spec: `db.set_board(addr, board)` updates only the
board column of the row of `addr`. -/
def set_board (db : Db) (addr : String) (board : Option String) : Db :=
  updateRow db addr (fun g => { g with board := board })

/-- Modelled from the spec: `db.set_game(addr, board, score)` updates both
the board and the score column of the row of `addr`. -/
def set_game (db : Db) (addr : String) (board : Option String) (score : Nat) : Db :=
  updateRow db addr (fun g => { g with board := board, score := score })

/-- Modelled from the spec: `db.add_game(addr, gid, board)` inserts a fresh
row for a player with no previous game, starting at score 0. -/
def add_game (db : Db) (addr : String) (gid : Nat) (board : String) : Db :=
  db ++ [{ addr := addr, gid := gid, board := some board, score := 0 }]

/-- Python `str.isalnum()` on the character list of the text (ASCII letters
and digits, the alphabet of the 4-character move encoding). -/
def pyIsAlnum (l : List Char) : Bool :=
  !l.isEmpty && l.all (fun c => c.isAlpha || c.isDigit)

/-- Python `str.isalpha()`. -/
def pyIsAlpha (l : List Char) : Bool :=
  !l.isEmpty && l.all (fun c => c.isAlpha)

/-- Python `str.isdigit()`. -/
def pyIsDigit (l : List Char) : Bool :=
  !l.isEmpty && l.all (fun c => c.isDigit)

/-- The move-text pre-filter guard of `filter_messages`: the message is
forwarded past the early return iff
`len(text) == 4 and text.isalnum() and not text.isalpha() and not text.isdigit()`. -/
def moveGuard (t : String) : Bool :=
  (t.length == 4) && pyIsAlnum t.data && !pyIsAlpha t.data && !pyIsDigit t.data

/-- The final score computed by `_run_turn` on a terminal board:
`b.old_score + 1` when `b.old_score >= b.score > b.old_score / 2`
(the `/` is Python true division, so `b.score > b.old_score / 2` is
`2 * b.score > b.old_score` over the integers), and `b.score` otherwise. -/
def finalScore {B : Type} (E : Engine B) (b : B) : Nat :=
  if E.old_score b ≥ E.score b ∧ E.old_score b < 2 * E.score b
  then E.old_score b + 1 else E.score b

/-- `_run_turn(gid)` from `__init__.py`: re-reads the game row, loads the
board and, when the game is over, persists the `None` board sentinel
(together with the new high score when one was achieved) and formats the
game-over text; otherwise formats the ongoing-turn text.  The `assert`
failure, a `None` board and an unloadable board string are modelled as
leaving the database unchanged with an empty text: every call site invokes
`_run_turn` immediately after storing a loadable board export. -/
def _run_turn {B : Type} (E : Engine B) (db : Db) (gid : Nat) : Db × String :=
  match getGameByGid db gid with
  | none => (db, "")
  | some g =>
    match g.board with
    | none => (db, "")
    | some s =>
      match E.load s with
      | .error _ => (db, "")
      | .ok b =>
        if E.result b = 1 then
          if E.old_score b < finalScore E b then
            (set_game db g.addr none (finalScore E b),
             "🏆 Game over\nNew High Score: " ++ toString (finalScore E b)
               ++ "\n📊 /lines_top\n\n" ++ E.render b
               ++ "\n▶️ Play again?  /lines_play")
          else
            (set_board db g.addr none,
             "☠️ Game over\n📊 Score: " ++ toString (finalScore E b) ++ "\n\n "
               ++ E.render b ++ "\n▶️ Play again?  /lines_play")
        else
          (db, "📊 Score: " ++ toString (E.score b) ++ " / " ++ toString g.score
            ++ "\n\n" ++ E.render b ++ "\nNext:  " ++ E.nextBallsText b
            ++ "  /lines_next")

/-- `filter_messages(message, replies)` from `__init__.py`, as a function of
the incoming message's chat id and text: returns the updated database and
the list of reply texts. -/
def filter_messages {B : Type} (E : Engine B) (db : Db) (gid : Nat) (text : String) :
    Db × List String :=
  if !moveGuard text then (db, [])
  else
    match getGameByGid db gid with
    | none => (db, [])
    | some g =>
      match g.board with
      | none => (db, [])
      | some s =>
        match E.load s with
        | .error _ => (db, ["❌ Invalid move!"])
        | .ok b0 =>
          match E.move b0 text with
          | .error _ => (db, ["❌ Invalid move!"])
          | .ok b =>
            let db1 := if E.score b > g.score
                       then set_game db g.addr (some (E.exportStr b)) (E.score b)
                       else set_board db g.addr (some (E.exportStr b))
            let r := _run_turn E db1 gid
            (r.1, [r.2])

/-- `lines_play` from `__init__.py`, as a function of whether the player has
a nick, the player's address and name, and the id of the group that would be
created for a brand-new game. -/
def lines_play {B : Type} (E : Engine B) (db : Db) (hasNick : Bool) (addr : String)
    (newGid : Nat) (name : String) : Db × List String :=
  if !hasNick then
    (db, ["You need to set a nick before start playing, send /lines_nick Your Nick"])
  else
    match getGameByAddr db addr with
    | none =>
      let db1 := add_game db addr newGid (E.exportStr E.fresh)
      let r := _run_turn E db1 newGid
      (r.1, ["Hello " ++ name ++ ", in this group you can play Color Lines.\n\n" ++ r.2])
    | some g =>
      let db1 := set_board db g.addr (some (E.exportStr (E.newWith g.score)))
      let r := _run_turn E db1 g.gid
      (r.1, ["Game started!\n\n" ++ r.2])

/-- `lines_next` from `__init__.py`.  `Board(game["board"])` raising on an
unloadable stored string is an uncaught exception in the Python source
(no write and no reply happen), modelled as returning the database
unchanged with no reply. -/
def lines_next {B : Type} (E : Engine B) (db : Db) (gid : Nat) : Db × List String :=
  match getGameByGid db gid with
  | none => (db, ["No active game, send /lines_play to start playing."])
  | some g =>
    match g.board with
    | none => (db, ["No active game, send /lines_play to start playing."])
    | some s =>
      match E.load s with
      | .error _ => (db, [])
      | .ok b =>
        let db1 := set_board db g.addr (some (E.exportStr (E.next b)))
        let r := _run_turn E db1 gid
        (r.1, [r.2])

/-- Engine facts guaranteed by the specification of the Color Lines engine,
used as hypotheses by the caller-side theorems: serialization round-trips,
a successful `move` never decreases the running score and preserves the
carried score, `next()` never decreases the running score and preserves the
carried score, and `Board(old_score=S)` carries `S`. -/
structure EngineOK {B : Type} (E : Engine B) : Prop where
  load_exportStr : ∀ b, E.load (E.exportStr b) = .ok b
  move_score : ∀ b t b', E.move b t = .ok b' → E.score b ≤ E.score b'
  move_old : ∀ b t b', E.move b t = .ok b' → E.old_score b' = E.old_score b
  next_score : ∀ b, E.score b ≤ E.score (E.next b)
  next_old : ∀ b, E.old_score (E.next b) = E.old_score b
  newWith_old : ∀ s, E.old_score (E.newWith s) = s

/-- Reachability invariant of a stored game row: its board string loads, and
the stored score never exceeds the larger of the board's carried score and
running score (the stored score equals the board's carried score when a game
starts, and is only ever overwritten with the board's running score). -/
def rowInv {B : Type} (E : Engine B) (g : GameRow) : Prop :=
  ∀ s, g.board = some s →
    ∃ b, E.load s = .ok b ∧ g.score ≤ max (E.old_score b) (E.score b)

/-- Reachability invariant of the games table: addresses are a primary key
and every row satisfies `rowInv`. -/
def dbInv {B : Type} (E : Engine B) (db : Db) : Prop :=
  (db.map GameRow.addr).Nodup ∧ ∀ g ∈ db, rowInv E g

/-- `db'` dominates `db`: every row of `db` has a row with the same address
and at least the same score in `db'`. -/
def dbScoreMono (db db' : Db) : Prop :=
  ∀ g ∈ db, ∃ g' ∈ db', g'.addr = g.addr ∧ g.score ≤ g'.score

/-- Modelled from the spec: the closed enumeration of the 7 symbolic ball
colors of the engine (`game.py`, absent from the sources). -/
inductive Color
  | red | orange | yellow | green | blue | purple | cyan
deriving DecidableEq

/-- A grid cell: empty or a ball of one color. -/
abbrev Cell := Option Color

/-- The serialization character of each color. -/
def colorChar : Color → Char
  | .red => 'r'
  | .orange => 'o'
  | .yellow => 'y'
  | .green => 'g'
  | .blue => 'b'
  | .purple => 'p'
  | .cyan => 'c'

/-- Inverse of `colorChar`; `none` on any non-color character. -/
def charColor : Char → Option Color
  | 'r' => some .red
  | 'o' => some .orange
  | 'y' => some .yellow
  | 'g' => some .green
  | 'b' => some .blue
  | 'p' => some .purple
  | 'c' => some .cyan
  | _ => none

/-- The serialization character of a cell: `'-'` for empty. -/
def cellChar : Cell → Char
  | none => '-'
  | some c => colorChar c

/-- Inverse of `cellChar`. -/
def charCell (ch : Char) : Option Cell :=
  if ch = '-' then some none else (charColor ch).map some

/-- The ten decimal digit characters, in order of value. -/
def digitChars : List Char := ['0', '1', '2', '3', '4', '5', '6', '7', '8', '9']

/-- Decimal digit to character. -/
def digitChar (d : Nat) : Char := digitChars.getD d '?'

/-- Character to decimal digit; `none` on any non-digit character. -/
def charDigit (c : Char) : Option Nat := digitChars.indexOf? c

/-- Little-endian decimal digits of `n`, fuel-recursive so that it reduces
in the kernel (`fuel ≥ n` suffices). -/
def natDigitsRev : Nat → Nat → List Nat
  | 0, _ => []
  | fuel + 1, n => if n = 0 then [] else n % 10 :: natDigitsRev fuel (n / 10)

/-- Little-endian decimal digits of `n` (empty for 0). -/
def natDigits (n : Nat) : List Nat := natDigitsRev n n

/-- Value of a little-endian decimal digit list. -/
def digitsVal : List Nat → Nat
  | [] => 0
  | d :: ds => d + 10 * digitsVal ds

/-- Parse every character as a decimal digit. -/
def parseDigits : List Char → Option (List Nat)
  | [] => some []
  | ch :: l =>
    match charDigit ch, parseDigits l with
    | some d, some ds => some (d :: ds)
    | _, _ => none

/-- Parse every character as a cell. -/
def parseCells : List Char → Option (List Cell)
  | [] => some []
  | ch :: l =>
    match charCell ch, parseCells l with
    | some c, some cs => some (c :: cs)
    | _, _ => none

/-- Parse every character as a color. -/
def parseColors : List Char → Option (List Color)
  | [] => some []
  | ch :: l =>
    match charColor ch, parseColors l with
    | some c, some cs => some (c :: cs)
    | _, _ => none

/-- Split a character list at its first `'/'`; `none` when there is none. -/
def splitAtSlash : List Char → Option (List Char × List Char)
  | [] => none
  | ch :: l =>
    if ch = '/' then some ([], l)
    else (splitAtSlash l).map (fun p => (ch :: p.1, p.2))

/-- Modelled from the spec: the engine `GameState` that round-trips through
the serialized string — the 9×9 grid (81 cells, row-major), the current
score, the carried-over prior score, and the length-3 lookahead batch
(`game.py` is absent from the sources; §6 of the spec fixes exactly these
fields of the persisted format). -/
structure GameState where
  grid : List Cell
  score : Nat
  old_score : Nat
  next_balls : List Color
deriving DecidableEq

/-- The shape every reachable `GameState` has: a full 9×9 grid and a
lookahead batch of the fixed spawn size 3. -/
def wellFormedState (g : GameState) : Prop :=
  g.grid.length = 81 ∧ g.next_balls.length = 3

/-- Modelled from the spec: `export()` — the grid cells in row-major order,
then the lookahead batch, then the current score and the carried score in
decimal (little-endian digits) separated by `'/'`; a stable, fixed,
deterministic layout encoding exactly the fields of §6. -/
def exportState (g : GameState) : String :=
  ⟨g.grid.map cellChar ++ g.next_balls.map colorChar
    ++ (natDigits g.score).map digitChar
    ++ '/' :: (natDigits g.old_score).map digitChar⟩

/-- Modelled from the spec: the import direction `Board(string)` — parses
the layout of `exportState` back into a `GameState`; any malformed input
yields `none` (`CorruptState`), never a partially-initialized state. -/
def importState (s : String) : Option GameState :=
  match parseCells (s.data.take 81), parseColors ((s.data.drop 81).take 3) with
  | some grid, some batch =>
    if grid.length = 81 ∧ batch.length = 3 then
      match splitAtSlash ((s.data.drop 81).drop 3) with
      | some (d1, d2) =>
        match parseDigits d1, parseDigits d2 with
        | some ds1, some ds2 =>
          some { grid := grid, score := digitsVal ds1, old_score := digitsVal ds2,
                 next_balls := batch }
        | _, _ => none
      | none => none
    else none
  | _, _ => none

/-- Toy engine over `Nat` (a board is just its carried score), used to
instantiate caller-side theorems on concrete inputs; its export string is
the unary encoding of the value, so serialization provably round-trips. -/
def engU : Engine Nat where
  load := fun s => .ok s.length
  move := fun _ _ => .error ()
  next := fun b => b
  exportStr := fun b => ⟨List.replicate b 'x'⟩
  score := fun _ => 0
  old_score := fun b => b
  result := fun _ => 0
  render := fun _ => ""
  nextBallsText := fun _ => ""
  fresh := 0
  newWith := fun s => s

/-- Toy engine over pairs `(old_score, score)` whose every load yields the
given terminal board, used to instantiate the game-over theorems. -/
def engOver (p : Nat × Nat) : Engine (Nat × Nat) where
  load := fun _ => .ok p
  move := fun b _ => .ok b
  next := fun b => (b.1, b.2 + 100)
  exportStr := fun _ => "E"
  score := fun b => b.2
  old_score := fun b => b.1
  result := fun _ => 1
  render := fun _ => "R"
  nextBallsText := fun _ => "N"
  fresh := (0, 0)
  newWith := fun s => (s, 0)

/-- Toy engine whose loads always fail, modelling a `Board(...)` constructor
that raises `ValueError`. -/
def engErr : Engine Nat where
  load := fun _ => .error ()
  move := fun _ _ => .error ()
  next := fun b => b
  exportStr := fun _ => ""
  score := fun _ => 0
  old_score := fun b => b
  result := fun _ => 0
  render := fun _ => ""
  nextBallsText := fun _ => ""
  fresh := 0
  newWith := fun s => s

/-- Sample games table used by the witnesses (board loadable by `engU`). -/
def demoDb : Db := [{ addr := "alice", gid := 1, board := some "xxxxxxx", score := 5 }]

/-- Sample games table used by the witnesses (board loadable by `engOver`). -/
def demoDb2 : Db := [{ addr := "alice", gid := 1, board := some "E", score := 5 }]

/-- Sample games table with the no-active-board sentinel stored. -/
def demoDbNone : Db := [{ addr := "alice", gid := 1, board := none, score := 5 }]

/-- Sample reachable game state used by the round-trip witness. -/
def demoState : GameState :=
  { grid := List.replicate 80 (none : Cell) ++ [some Color.red]
    score := 12
    old_score := 7
    next_balls := [Color.red, Color.green, Color.blue] }

theorem charColor_colorChar (c : Color) : charColor (colorChar c) = some c := by
  cases c <;> rfl

theorem charCell_cellChar (c : Cell) : charCell (cellChar c) = some c := by
  rcases c with _ | col
  · rfl
  · cases col <;> rfl

theorem parseCells_map (l : List Cell) : parseCells (l.map cellChar) = some l := by
  induction l with
  | nil => rfl
  | cons c l ih => simp [parseCells, charCell_cellChar, ih]

theorem parseColors_map (l : List Color) : parseColors (l.map colorChar) = some l := by
  induction l with
  | nil => rfl
  | cons c l ih => simp [parseColors, charColor_colorChar, ih]

theorem charDigit_digitChar {d : Nat} (h : d < 10) : charDigit (digitChar d) = some d := by
  interval_cases d <;> decide

theorem digitChar_ne_slash {d : Nat} (h : d < 10) : digitChar d ≠ '/' := by
  interval_cases d <;> decide

theorem natDigitsRev_lt (fuel : Nat) : ∀ n, ∀ d ∈ natDigitsRev fuel n, d < 10 := by
  induction fuel with
  | zero => intro n d hd; simp [natDigitsRev] at hd
  | succ fuel ih =>
    intro n d hd
    rw [natDigitsRev] at hd
    split at hd
    · simp at hd
    · rcases List.mem_cons.1 hd with h | h
      · subst h; exact Nat.mod_lt _ (by omega)
      · exact ih _ d h

theorem natDigits_lt (n : Nat) : ∀ d ∈ natDigits n, d < 10 :=
  natDigitsRev_lt n n

theorem parseDigits_map {l : List Nat} (h : ∀ d ∈ l, d < 10) :
    parseDigits (l.map digitChar) = some l := by
  induction l with
  | nil => rfl
  | cons d l ih =>
    simp [parseDigits, charDigit_digitChar (h d (List.mem_cons_self d l)),
      ih (fun x hx => h x (List.mem_cons_of_mem d hx))]

theorem digitsVal_natDigitsRev : ∀ fuel n, n ≤ fuel → digitsVal (natDigitsRev fuel n) = n := by
  intro fuel
  induction fuel with
  | zero => intro n h; interval_cases n; rfl
  | succ fuel ih =>
    intro n h
    rw [natDigitsRev]
    by_cases h0 : n = 0
    · simp [h0, digitsVal]
    · rw [if_neg h0, digitsVal, ih (n / 10) (by
        have : n / 10 < n := Nat.div_lt_self (Nat.pos_of_ne_zero h0) (by omega)
        omega)]
      exact Nat.mod_add_div n 10

theorem digitsVal_natDigits (n : Nat) : digitsVal (natDigits n) = n :=
  digitsVal_natDigitsRev n n (le_refl n)

theorem splitAtSlash_append {l1 : List Char} (l2 : List Char)
    (h : ∀ c ∈ l1, c ≠ '/') :
    splitAtSlash (l1 ++ '/' :: l2) = some (l1, l2) := by
  induction l1 with
  | nil => simp [splitAtSlash]
  | cons c l1 ih =>
    have hc : c ≠ '/' := h c (List.mem_cons_self c l1)
    simp [splitAtSlash, hc, ih (fun x hx => h x (List.mem_cons_of_mem c hx))]

/-- Claim C1: for every reachable (well-formed) `GameState`, importing the
exported string reconstructs the state exactly — grid contents, current
score, carried-over prior score, and lookahead batch are all preserved. -/
theorem spec_C1 (g : GameState) (h : wellFormedState g) :
    importState (exportState g) = some g := by
  obtain ⟨h1, h2⟩ := h
  have hgl : (g.grid.map cellChar).length = 81 := by simp [h1]
  have hbl : (g.next_balls.map colorChar).length = 3 := by simp [h2]
  have hdata : (exportState g).data
      = g.grid.map cellChar ++ (g.next_balls.map colorChar
        ++ ((natDigits g.score).map digitChar
          ++ '/' :: (natDigits g.old_score).map digitChar)) := by
    simp [exportState]
  have htake : (exportState g).data.take 81 = g.grid.map cellChar := by
    rw [hdata, ← hgl, List.take_left]
  have hdrop : (exportState g).data.drop 81
      = g.next_balls.map colorChar
        ++ ((natDigits g.score).map digitChar
          ++ '/' :: (natDigits g.old_score).map digitChar) := by
    rw [hdata, ← hgl, List.drop_left]
  have htake3 : ((exportState g).data.drop 81).take 3 = g.next_balls.map colorChar := by
    rw [hdrop, ← hbl, List.take_left]
  have hdrop3 : ((exportState g).data.drop 81).drop 3
      = (natDigits g.score).map digitChar
        ++ '/' :: (natDigits g.old_score).map digitChar := by
    rw [hdrop, ← hbl, List.drop_left]
  have hsplit : splitAtSlash (((exportState g).data.drop 81).drop 3)
      = some ((natDigits g.score).map digitChar, (natDigits g.old_score).map digitChar) := by
    rw [hdrop3]
    refine splitAtSlash_append _ ?_
    intro c hc
    obtain ⟨d, hd, rfl⟩ := List.mem_map.1 hc
    exact digitChar_ne_slash (natDigits_lt _ d hd)
  rw [importState, htake, htake3, parseCells_map, parseColors_map]
  dsimp only
  rw [if_pos ⟨h1, h2⟩, hsplit]
  dsimp only
  rw [parseDigits_map (natDigits_lt g.score), parseDigits_map (natDigits_lt g.old_score)]
  dsimp only
  rw [digitsVal_natDigits, digitsVal_natDigits]

/-- Witness for C1: the round trip evaluated on a concrete reachable state. -/
theorem spec_C1_witness :
    wellFormedState demoState ∧ importState (exportState demoState) = some demoState :=
  ⟨⟨by decide, by decide⟩, spec_C1 demoState ⟨by decide, by decide⟩⟩

theorem isAlpha_false_of_isDigit {c : Char} (h : c.isDigit = true) : c.isAlpha = false := by
  simp [Char.isDigit, Char.isAlpha, Char.isUpper, Char.isLower, UInt32.le_def,
    BitVec.le_def] at *
  omega

theorem isDigit_false_of_isAlpha {c : Char} (h : c.isAlpha = true) : c.isDigit = false := by
  cases hd : c.isDigit
  · rfl
  · rw [isAlpha_false_of_isDigit hd] at h; cases h

theorem moveGuard_iff (t : String) :
    moveGuard t = true ↔
      (t.length = 4 ∧ (∀ c ∈ t.data, c.isAlpha = true ∨ c.isDigit = true)
        ∧ (∃ c ∈ t.data, c.isAlpha = true) ∧ (∃ c ∈ t.data, c.isDigit = true)) := by
  have hld : t.length = t.data.length := rfl
  unfold moveGuard pyIsAlnum pyIsAlpha pyIsDigit
  constructor
  · intro h
    simp only [Bool.and_eq_true, beq_iff_eq, Bool.not_eq_true', List.all_eq_true,
      Bool.or_eq_true, hld] at h
    obtain ⟨⟨⟨hlen, hne, hall⟩, hna⟩, hnd⟩ := h
    rw [Bool.and_eq_false_iff] at hna hnd
    refine ⟨hlen, hall, ?_, ?_⟩
    · rcases hnd with h | h
      · simp [hne] at h
      · obtain ⟨c, hc, hcd⟩ := by simpa using List.all_eq_false.1 h
        rcases hall c hc with ha | hd
        · exact ⟨c, hc, ha⟩
        · rw [hd] at hcd; cases hcd
    · rcases hna with h | h
      · simp [hne] at h
      · obtain ⟨c, hc, hca⟩ := by simpa using List.all_eq_false.1 h
        rcases hall c hc with ha | hd
        · rw [ha] at hca; cases hca
        · exact ⟨c, hc, hd⟩
  · rintro ⟨hlen, hall, ⟨ca, hca, hcaA⟩, ⟨cd, hcd, hcdD⟩⟩
    have hne : t.data ≠ [] := by
      intro h; rw [h] at hcd; cases hcd
    simp only [Bool.and_eq_true, beq_iff_eq, Bool.not_eq_true', List.all_eq_true,
      Bool.or_eq_true, hld, Bool.and_eq_false_iff]
    refine ⟨⟨⟨hlen, ?_, hall⟩, ?_⟩, ?_⟩
    · simpa using hne
    · right
      exact List.all_eq_false.2 ⟨cd, hcd, by simp [isAlpha_false_of_isDigit hcdD]⟩
    · right
      exact List.all_eq_false.2 ⟨ca, hca, by simp [isDigit_false_of_isAlpha hcaA]⟩

/-- Claim C2: when the guard passes but the stored board string fails to
load (`Board(...)` raises `ValueError`) or the move raises `ValueError`,
`filter_messages` performs no database write — neither `set_game` nor
`set_board` — leaving the persisted state exactly as it was, and replies
"❌ Invalid move!". -/
theorem spec_C2 {B : Type} (E : Engine B) (db : Db) (gid : Nat) (text : String)
    (g : GameRow) (s : String)
    (hguard : moveGuard text = true)
    (hg : getGameByGid db gid = some g) (hb : g.board = some s)
    (hfail : E.load s = .error ()
      ∨ ∃ b0, E.load s = .ok b0 ∧ E.move b0 text = .error ()) :
    filter_messages E db gid text = (db, ["❌ Invalid move!"]) := by
  rcases hfail with h | ⟨b0, hb0, hm⟩
  · simp [filter_messages, hguard, hg, hb, h]
  · simp [filter_messages, hguard, hg, hb, hb0, hm]

/-- Witness for C2: a failing board load on a concrete table leaves the
table unchanged and replies with the rejection text. -/
theorem spec_C2_witness :
    moveGuard "a1b2" = true
      ∧ filter_messages engErr demoDb 1 "a1b2" = (demoDb, ["❌ Invalid move!"]) :=
  ⟨by decide,
    spec_C2 engErr demoDb 1 "a1b2" { addr := "alice", gid := 1, board := some "xxxxxxx", score := 5 }
      "xxxxxxx" (by decide) (by decide) rfl (Or.inl rfl)⟩

/-- Claim C3: the pre-filter guard holds iff the text is exactly 4
characters, all alphanumeric, with at least one letter and at least one
digit; any text failing the guard is ignored upstream — `filter_messages`
returns with no reply and no database write, whatever the engine (so no
board is constructed and no move is forwarded). -/
theorem spec_C3 (t : String) :
    (moveGuard t = true ↔
      (t.length = 4 ∧ (∀ c ∈ t.data, c.isAlpha = true ∨ c.isDigit = true)
        ∧ (∃ c ∈ t.data, c.isAlpha = true) ∧ (∃ c ∈ t.data, c.isDigit = true)))
    ∧ (moveGuard t = false →
      ∀ (B : Type) (E : Engine B) (db : Db) (gid : Nat),
        filter_messages E db gid t = (db, [])) := by
  refine ⟨moveGuard_iff t, ?_⟩
  intro h B E db gid
  simp [filter_messages, h]

/-- Witness for C3: an all-letter 4-character text is ignored on a concrete
table. -/
theorem spec_C3_witness :
    moveGuard "abcd" = false ∧ filter_messages engU demoDb 1 "abcd" = (demoDb, []) :=
  ⟨by decide, (spec_C3 "abcd").2 (by decide) Nat engU demoDb 1⟩

/-- Claim C4: a stored game whose board is the `None` sentinel never has a
move attempted on it: `filter_messages` returns with no reply and no write
(for any engine, so no `Board` is constructed), and `lines_next` does not
call `next()` but replies that there is no active game. -/
theorem spec_C4 {B : Type} (E : Engine B) (db : Db) (gid : Nat) (g : GameRow)
    (hg : getGameByGid db gid = some g) (hb : g.board = none) :
    (∀ text, filter_messages E db gid text = (db, [])) ∧
    lines_next E db gid = (db, ["No active game, send /lines_play to start playing."]) := by
  constructor
  · intro text
    by_cases hgd : moveGuard text = true
    · simp [filter_messages, hgd, hg, hb]
    · have hgd' : moveGuard text = false := by simpa using hgd
      simp [filter_messages, hgd']
  · simp [lines_next, hg, hb]

/-- Witness for C4: the sentinel row on a concrete table. -/
theorem spec_C4_witness :
    filter_messages engU demoDbNone 1 "a1b2" = (demoDbNone, []) ∧
      lines_next engU demoDbNone 1
        = (demoDbNone, ["No active game, send /lines_play to start playing."]) := by
  have h := spec_C4 engU demoDbNone 1
    { addr := "alice", gid := 1, board := none, score := 5 } (by decide) rfl
  exact ⟨h.1 "a1b2", h.2⟩

theorem board_none_of_mem_update {db : Db} {a : String} {f : GameRow → GameRow}
    (hbn : ∀ x, (f x).board = none) {r : GameRow}
    (hmem : r ∈ updateRow db a f) (hra : r.addr = a) : r.board = none := by
  rw [updateRow] at hmem
  obtain ⟨r0, hr0, rfl⟩ := List.mem_map.1 hmem
  by_cases h : r0.addr = a
  · simp only [if_pos h]
    exact hbn r0
  · simp only [if_neg h] at hra ⊢
    exact absurd hra h

theorem map_score_set_board (db : Db) (a : String) (ob : Option String) :
    (set_board db a ob).map GameRow.score = db.map GameRow.score := by
  unfold set_board updateRow
  rw [List.map_map]
  apply List.map_congr_left
  intro r hr
  by_cases h : r.addr = a <;> simp [h]

/-- Claim C5: on a terminal board (`result() == 1`), `_run_turn` stores the
`None` board sentinel for the player — through `set_game(addr, None, score)`
when a new high score is recorded and through `set_board(addr, None)`
otherwise — so the group is left with no active board. -/
theorem spec_C5 {B : Type} (E : Engine B) (db : Db) (gid : Nat) (g : GameRow)
    (s : String) (b : B)
    (hg : getGameByGid db gid = some g) (hb : g.board = some s)
    (hl : E.load s = .ok b) (hover : E.result b = 1) :
    (_run_turn E db gid).1
        = (if E.old_score b < finalScore E b
           then set_game db g.addr none (finalScore E b)
           else set_board db g.addr none)
      ∧ ∀ r ∈ (_run_turn E db gid).1, r.addr = g.addr → r.board = none := by
  have h1 : (_run_turn E db gid).1
      = if E.old_score b < finalScore E b
        then set_game db g.addr none (finalScore E b)
        else set_board db g.addr none := by
    by_cases hc : E.old_score b < finalScore E b
    · simp [_run_turn, hg, hb, hl, hover, hc]
    · simp [_run_turn, hg, hb, hl, hover, hc]
  refine ⟨h1, ?_⟩
  intro r hr hra
  rw [h1] at hr
  by_cases hc : E.old_score b < finalScore E b
  · rw [if_pos hc, set_game] at hr
    exact board_none_of_mem_update (fun x => rfl) hr hra
  · rw [if_neg hc, set_board] at hr
    exact board_none_of_mem_update (fun x => rfl) hr hra

/-- Witness for C5: a terminal board with no new high score clears the
stored board on a concrete table. -/
theorem spec_C5_witness :
    (engOver (7, 3)).result (7, 3) = 1
      ∧ (_run_turn (engOver (7, 3)) demoDb2 1).1
          = (if (engOver (7, 3)).old_score (7, 3) < finalScore (engOver (7, 3)) (7, 3)
             then set_game demoDb2 "alice" none (finalScore (engOver (7, 3)) (7, 3))
             else set_board demoDb2 "alice" none)
      ∧ ∀ r ∈ (_run_turn (engOver (7, 3)) demoDb2 1).1, r.addr = "alice" → r.board = none := by
  have h := spec_C5 (engOver (7, 3)) demoDb2 1
    { addr := "alice", gid := 1, board := some "E", score := 5 } "E" (7, 3)
    (by decide) rfl rfl rfl
  exact ⟨rfl, h.1, h.2⟩

/-- Claim C7: when a terminal board's running score strictly exceeds its
carried `old_score` (e.g. `old_score = 42`, score `50`), `_run_turn`
persists exactly the running score as the new high score via
`set_game(addr, None, score)` and reports the "New High Score" message —
the comparison is made by this caller, not the engine. -/
theorem spec_C7 {B : Type} (E : Engine B) (db : Db) (gid : Nat) (g : GameRow)
    (s : String) (b : B)
    (hg : getGameByGid db gid = some g) (hb : g.board = some s)
    (hl : E.load s = .ok b) (hover : E.result b = 1)
    (hhigh : E.old_score b < E.score b) :
    _run_turn E db gid
      = (set_game db g.addr none (E.score b),
         "🏆 Game over\nNew High Score: " ++ toString (E.score b)
           ++ "\n📊 /lines_top\n\n" ++ E.render b ++ "\n▶️ Play again?  /lines_play") := by
  have hfs : finalScore E b = E.score b := by
    rw [finalScore, if_neg]
    rintro ⟨h1, -⟩
    omega
  simp [_run_turn, hg, hb, hl, hover, hfs, hhigh]

/-- Witness for C7: the spec's carried-score scenario `old_score = 42`,
terminal running score `50`, on a concrete table. -/
theorem spec_C7_witness :
    (engOver (42, 50)).result (42, 50) = 1 ∧ (42 : Nat) < 50
      ∧ _run_turn (engOver (42, 50)) demoDb2 1
          = (set_game demoDb2 "alice" none ((engOver (42, 50)).score (42, 50)),
             "🏆 Game over\nNew High Score: "
               ++ toString ((engOver (42, 50)).score (42, 50))
               ++ "\n📊 /lines_top\n\n" ++ (engOver (42, 50)).render (42, 50)
               ++ "\n▶️ Play again?  /lines_play") := by
  have h := spec_C7 (engOver (42, 50)) demoDb2 1
    { addr := "alice", gid := 1, board := some "E", score := 5 } "E" (42, 50)
    (by decide) rfl rfl rfl (by decide)
  exact ⟨rfl, by decide, h⟩

/-- Claim C9: on a terminal board with `old_score >= score > old_score / 2`
(Python true division, i.e. `old_score < 2 * score`), `_run_turn` records
`old_score + 1` as the final score, persists it via
`set_game(addr, None, old_score + 1)` and reports it as a new high score —
the consolation bump present in the code. -/
theorem spec_C9 {B : Type} (E : Engine B) (db : Db) (gid : Nat) (g : GameRow)
    (s : String) (b : B)
    (hg : getGameByGid db gid = some g) (hb : g.board = some s)
    (hl : E.load s = .ok b) (hover : E.result b = 1)
    (hc1 : E.score b ≤ E.old_score b) (hc2 : E.old_score b < 2 * E.score b) :
    _run_turn E db gid
      = (set_game db g.addr none (E.old_score b + 1),
         "🏆 Game over\nNew High Score: " ++ toString (E.old_score b + 1)
           ++ "\n📊 /lines_top\n\n" ++ E.render b ++ "\n▶️ Play again?  /lines_play") := by
  have hfs : finalScore E b = E.old_score b + 1 := by
    rw [finalScore, if_pos ⟨hc1, hc2⟩]
  have hlt : E.old_score b < finalScore E b := by rw [hfs]; omega
  simp [_run_turn, hg, hb, hl, hover, hfs, hlt]

/-- Witness for C9: `old_score = 10`, terminal score `6` — strictly more
than half of 10 but not above it — is bumped and stored as `11`. -/
theorem spec_C9_witness :
    (engOver (10, 6)).result (10, 6) = 1 ∧ (6 : Nat) ≤ 10 ∧ (10 : Nat) < 2 * 6
      ∧ _run_turn (engOver (10, 6)) demoDb2 1
          = (set_game demoDb2 "alice" none ((engOver (10, 6)).old_score (10, 6) + 1),
             "🏆 Game over\nNew High Score: "
               ++ toString ((engOver (10, 6)).old_score (10, 6) + 1)
               ++ "\n📊 /lines_top\n\n" ++ (engOver (10, 6)).render (10, 6)
               ++ "\n▶️ Play again?  /lines_play") := by
  have h := spec_C9 (engOver (10, 6)) demoDb2 1
    { addr := "alice", gid := 1, board := some "E", score := 5 } "E" (10, 6)
    (by decide) rfl rfl rfl (by decide) (by decide)
  exact ⟨rfl, by decide, by decide, h⟩

/-- Claim C6: `lines_play` for a player with an existing record builds the
new board as `Board(old_score=S)` with `S` the stored score, persists only
the board string through `set_board`, and leaves every stored score —
in particular the prior high score — unchanged. -/
theorem spec_C6 {B : Type} (E : Engine B) (db : Db) (addr : String) (g : GameRow)
    (newGid : Nat) (name : String)
    (hg : getGameByAddr db addr = some g)
    (hrt : E.load (E.exportStr (E.newWith g.score)) = .ok (E.newWith g.score))
    (hlook : getGameByGid (set_board db g.addr (some (E.exportStr (E.newWith g.score)))) g.gid
        = some { g with board := some (E.exportStr (E.newWith g.score)) })
    (hongoing : ¬ E.result (E.newWith g.score) = 1) :
    lines_play E db true addr newGid name
      = (set_board db g.addr (some (E.exportStr (E.newWith g.score))),
         ["Game started!\n\n"
            ++ ("📊 Score: " ++ toString (E.score (E.newWith g.score)) ++ " / "
              ++ toString g.score ++ "\n\n" ++ E.render (E.newWith g.score)
              ++ "\nNext:  " ++ E.nextBallsText (E.newWith g.score) ++ "  /lines_next")])
      ∧ (set_board db g.addr (some (E.exportStr (E.newWith g.score)))).map GameRow.score
          = db.map GameRow.score := by
  refine ⟨?_, map_score_set_board db g.addr _⟩
  simp [lines_play, _run_turn, hg, hlook, hrt, hongoing]

/-- Witness for C6: restarting a concrete stored game with carried score 5. -/
theorem spec_C6_witness :
    engU.load (engU.exportStr (engU.newWith 5)) = .ok (engU.newWith 5)
      ∧ lines_play engU demoDb true "alice" 9 "Alice"
        = (set_board demoDb "alice" (some (engU.exportStr (engU.newWith 5))),
           ["Game started!\n\n"
              ++ ("📊 Score: " ++ toString (engU.score (engU.newWith 5)) ++ " / "
                ++ toString (5 : Nat) ++ "\n\n" ++ engU.render (engU.newWith 5)
                ++ "\nNext:  " ++ engU.nextBallsText (engU.newWith 5) ++ "  /lines_next")])
      ∧ (set_board demoDb "alice" (some (engU.exportStr (engU.newWith 5)))).map GameRow.score
          = demoDb.map GameRow.score := by
  have h := spec_C6 engU demoDb "alice"
    { addr := "alice", gid := 1, board := some "xxxxxxx", score := 5 } 9 "Alice"
    (by decide) rfl (by decide) (by decide)
  exact ⟨rfl, h.1, h.2⟩

/-- Claim C10: the skip step of `lines_next` persists only the exported
board string via `set_board` — every stored score is unchanged by the skip
itself, even when `next()` raises the board's running score above the
stored score — and `lines_next` then hands that database to `_run_turn`. -/
theorem spec_C10 {B : Type} (E : Engine B) (db : Db) (gid : Nat) (g : GameRow)
    (s : String) (b : B)
    (hg : getGameByGid db gid = some g) (hb : g.board = some s)
    (hl : E.load s = .ok b) (hraise : g.score < E.score (E.next b)) :
    (set_board db g.addr (some (E.exportStr (E.next b)))).map GameRow.score
        = db.map GameRow.score
      ∧ lines_next E db gid
        = ((_run_turn E (set_board db g.addr (some (E.exportStr (E.next b)))) gid).1,
           [(_run_turn E (set_board db g.addr (some (E.exportStr (E.next b)))) gid).2]) := by
  refine ⟨map_score_set_board db g.addr _, ?_⟩
  simp [lines_next, hg, hb, hl]

/-- Witness for C10: a skip whose spawn raises the running score to 101,
far above the stored 5, still leaves the stored scores untouched. -/
theorem spec_C10_witness :
    (5 : Nat) < (engOver (0, 1)).score ((engOver (0, 1)).next (0, 1))
      ∧ (set_board demoDb2 "alice"
            (some ((engOver (0, 1)).exportStr ((engOver (0, 1)).next (0, 1))))).map GameRow.score
          = demoDb2.map GameRow.score
      ∧ lines_next (engOver (0, 1)) demoDb2 1
        = ((_run_turn (engOver (0, 1))
              (set_board demoDb2 "alice"
                (some ((engOver (0, 1)).exportStr ((engOver (0, 1)).next (0, 1))))) 1).1,
           [(_run_turn (engOver (0, 1))
              (set_board demoDb2 "alice"
                (some ((engOver (0, 1)).exportStr ((engOver (0, 1)).next (0, 1))))) 1).2]) := by
  have h := spec_C10 (engOver (0, 1)) demoDb2 1
    { addr := "alice", gid := 1, board := some "E", score := 5 } "E" (0, 1)
    (by decide) rfl rfl (by decide)
  exact ⟨by decide, h.1, h.2⟩

theorem mono_refl (db : Db) : dbScoreMono db db :=
  fun g hg => ⟨g, hg, rfl, le_refl _⟩

theorem mono_trans {a b c : Db} (h1 : dbScoreMono a b) (h2 : dbScoreMono b c) :
    dbScoreMono a c := by
  intro g hg
  obtain ⟨g1, hg1, ha1, hs1⟩ := h1 g hg
  obtain ⟨g2, hg2, ha2, hs2⟩ := h2 g1 hg1
  exact ⟨g2, hg2, by rw [ha2, ha1], hs1.trans hs2⟩

theorem mono_updateRow (db : Db) (a : String) (f : GameRow → GameRow)
    (haddr : ∀ r, (f r).addr = r.addr)
    (hs : ∀ r ∈ db, r.addr = a → r.score ≤ (f r).score) :
    dbScoreMono db (updateRow db a f) := by
  intro g hg
  refine ⟨if g.addr = a then f g else g, ?_, ?_, ?_⟩
  · rw [updateRow]
    exact List.mem_map_of_mem _ hg
  · by_cases h : g.addr = a
    · rw [if_pos h, haddr, h]
    · rw [if_neg h]
  · by_cases h : g.addr = a
    · rw [if_pos h]
      exact hs g hg h
    · rw [if_neg h]

theorem mono_append (db l : Db) : dbScoreMono db (db ++ l) :=
  fun g hg => ⟨g, List.mem_append_left _ hg, rfl, le_refl _⟩

theorem updateRow_map_addr (db : Db) (a : String) (f : GameRow → GameRow)
    (haddr : ∀ r, (f r).addr = r.addr) :
    (updateRow db a f).map GameRow.addr = db.map GameRow.addr := by
  rw [updateRow, List.map_map]
  apply List.map_congr_left
  intro r hr
  simp only [Function.comp_apply]
  by_cases h : r.addr = a
  · rw [if_pos h, haddr]
  · rw [if_neg h]

theorem row_eq_of_addr_eq {db : Db} (hnd : (db.map GameRow.addr).Nodup)
    {g r : GameRow} (hg : g ∈ db) (hr : r ∈ db) (h : r.addr = g.addr) : r = g :=
  List.inj_on_of_nodup_map hnd hr hg h

theorem dbInv_updateRow {B : Type} (E : Engine B) (db : Db) (a : String)
    (f : GameRow → GameRow) (hdb : dbInv E db)
    (haddr : ∀ r, (f r).addr = r.addr)
    (hinv : ∀ r ∈ db, r.addr = a → rowInv E (f r)) :
    dbInv E (updateRow db a f) := by
  refine ⟨?_, ?_⟩
  · rw [updateRow_map_addr db a f haddr]
    exact hdb.1
  · intro r hr
    rw [updateRow] at hr
    obtain ⟨r0, hr0, rfl⟩ := List.mem_map.1 hr
    by_cases h : r0.addr = a
    · simp only [if_pos h]
      exact hinv r0 hr0 h
    · simp only [if_neg h]
      exact hdb.2 r0 hr0

theorem mono_set_board (db : Db) (a : String) (ob : Option String) :
    dbScoreMono db (set_board db a ob) := by
  rw [set_board]
  apply mono_updateRow
  · intro r
    rfl
  · intro r _ _
    exact le_refl _

theorem mono_set_game (db : Db) (a : String) (ob : Option String) (ns : Nat)
    (hs : ∀ r ∈ db, r.addr = a → r.score ≤ ns) :
    dbScoreMono db (set_game db a ob ns) := by
  rw [set_game]
  apply mono_updateRow
  · intro r
    rfl
  · exact hs

theorem dbInv_set_game {B : Type} (E : Engine B) (db : Db) (a : String)
    (ob : Option String) (ns : Nat) (hdb : dbInv E db)
    (hinv : ∀ s', ob = some s' →
      ∃ b, E.load s' = .ok b ∧ ns ≤ max (E.old_score b) (E.score b)) :
    dbInv E (set_game db a ob ns) := by
  rw [set_game]
  apply dbInv_updateRow E db a _ hdb
  · intro r
    rfl
  · intro r hrm hra s' hs'
    exact hinv s' hs'

theorem dbInv_set_board {B : Type} (E : Engine B) (db : Db) (a : String)
    (ob : Option String) (hdb : dbInv E db)
    (hinv : ∀ r ∈ db, r.addr = a → ∀ s', ob = some s' →
      ∃ b, E.load s' = .ok b ∧ r.score ≤ max (E.old_score b) (E.score b)) :
    dbInv E (set_board db a ob) := by
  rw [set_board]
  apply dbInv_updateRow E db a _ hdb
  · intro r
    rfl
  · intro r hrm hra s' hs'
    exact hinv r hrm hra s' hs'

theorem run_turn_mono {B : Type} (E : Engine B) (hE : EngineOK E) (db : Db)
    (hdb : dbInv E db) (gid : Nat) :
    dbScoreMono db (_run_turn E db gid).1 := by
  rw [_run_turn]
  cases hg : getGameByGid db gid with
  | none => exact mono_refl db
  | some g =>
    dsimp only
    cases hb : g.board with
    | none => exact mono_refl db
    | some s =>
      dsimp only
      cases hl : E.load s with
      | error e => exact mono_refl db
      | ok b =>
        dsimp only
        have gmem : g ∈ db := List.mem_of_find?_eq_some hg
        obtain ⟨b', hl', hle⟩ := hdb.2 g gmem s hb
        rw [hl] at hl'
        injection hl' with he
        subst he
        by_cases hov : E.result b = 1
        · rw [if_pos hov]
          by_cases hw : E.old_score b < finalScore E b
          · rw [if_pos hw]
            dsimp only
            apply mono_set_game
            intro r hrm hra
            have hrg := row_eq_of_addr_eq hdb.1 gmem hrm hra
            subst hrg
            rw [finalScore]
            by_cases hc : E.old_score b ≥ E.score b ∧ E.old_score b < 2 * E.score b
            · rw [if_pos hc]
              rw [max_eq_left hc.1] at hle
              omega
            · rw [if_neg hc]
              rw [finalScore, if_neg hc] at hw
              rw [max_eq_right (le_of_lt hw)] at hle
              exact hle
          · rw [if_neg hw]
            dsimp only
            exact mono_set_board db g.addr none
        · rw [if_neg hov]
          exact mono_refl db

theorem filter_mono {B : Type} (E : Engine B) (hE : EngineOK E) (db : Db)
    (hdb : dbInv E db) (gid : Nat) (text : String) :
    dbScoreMono db (filter_messages E db gid text).1 := by
  rw [filter_messages]
  by_cases hgd : moveGuard text = true
  · simp only [hgd, Bool.not_true, Bool.false_eq_true, if_false]
    cases hg : getGameByGid db gid with
    | none => exact mono_refl db
    | some g =>
      dsimp only
      cases hb : g.board with
      | none => exact mono_refl db
      | some s =>
        dsimp only
        cases hl : E.load s with
        | error e => exact mono_refl db
        | ok b0 =>
          dsimp only
          cases hm : E.move b0 text with
          | error e => exact mono_refl db
          | ok b =>
            dsimp only
            have gmem : g ∈ db := List.mem_of_find?_eq_some hg
            obtain ⟨b0', hl', hle0⟩ := hdb.2 g gmem s hb
            rw [hl] at hl'
            injection hl' with he
            subst he
            have hle : g.score ≤ max (E.old_score b) (E.score b) := by
              refine hle0.trans (max_le_max ?_ (hE.move_score b0 text b hm))
              rw [hE.move_old b0 text b hm]
            have hmono1 : dbScoreMono db
                (if E.score b > g.score
                 then set_game db g.addr (some (E.exportStr b)) (E.score b)
                 else set_board db g.addr (some (E.exportStr b))) := by
              by_cases hw : E.score b > g.score
              · rw [if_pos hw]
                apply mono_set_game
                intro r hrm hra
                have hrg := row_eq_of_addr_eq hdb.1 gmem hrm hra
                subst hrg
                exact le_of_lt hw
              · rw [if_neg hw]
                exact mono_set_board db g.addr _
            have hinv1 : dbInv E
                (if E.score b > g.score
                 then set_game db g.addr (some (E.exportStr b)) (E.score b)
                 else set_board db g.addr (some (E.exportStr b))) := by
              by_cases hw : E.score b > g.score
              · rw [if_pos hw]
                apply dbInv_set_game E db g.addr _ _ hdb
                intro s' hs'
                injection hs' with hss
                subst hss
                exact ⟨b, hE.load_exportStr b, le_max_right _ _⟩
              · rw [if_neg hw]
                apply dbInv_set_board E db g.addr _ hdb
                intro r hrm hra s' hs'
                injection hs' with hss
                subst hss
                have hrg := row_eq_of_addr_eq hdb.1 gmem hrm hra
                subst hrg
                exact ⟨b, hE.load_exportStr b, hle⟩
            exact mono_trans hmono1 (run_turn_mono E hE _ hinv1 gid)
  · have hgd' : moveGuard text = false := by simpa using hgd
    simp only [hgd', Bool.not_false, if_true]
    exact mono_refl db

theorem lines_play_mono {B : Type} (E : Engine B) (hE : EngineOK E) (db : Db)
    (hdb : dbInv E db) (hasNick : Bool) (addr : String) (newGid : Nat) (name : String) :
    dbScoreMono db (lines_play E db hasNick addr newGid name).1 := by
  rw [lines_play]
  cases hasNick with
  | false => exact mono_refl db
  | true =>
    simp only [Bool.not_true, Bool.false_eq_true, if_false]
    cases hg : getGameByAddr db addr with
    | none =>
      dsimp only
      have hfresh : ∀ r ∈ db, r.addr ≠ addr := by
        intro r hr
        have h := List.find?_eq_none.1 hg r hr
        simpa using h
      have hinv1 : dbInv E (add_game db addr newGid (E.exportStr E.fresh)) := by
        constructor
        · rw [add_game, List.map_append, List.nodup_append]
          refine ⟨hdb.1, List.nodup_singleton _, ?_⟩
          intro x hx hx1
          obtain ⟨r, hr, rfl⟩ := List.mem_map.1 hx
          simp only [List.map_cons, List.map_nil, List.mem_cons, List.not_mem_nil,
            or_false] at hx1
          exact hfresh r hr hx1
        · intro r hr
          rw [add_game] at hr
          rcases List.mem_append.1 hr with h | h
          · exact hdb.2 r h
          · simp only [List.mem_cons, List.not_mem_nil, or_false] at h
            subst h
            intro s hs
            injection hs with hss
            subst hss
            exact ⟨E.fresh, hE.load_exportStr _, Nat.zero_le _⟩
      exact mono_trans (mono_append db _) (run_turn_mono E hE _ hinv1 newGid)
    | some g =>
      dsimp only
      have gmem : g ∈ db := List.mem_of_find?_eq_some hg
      have hinv1 : dbInv E (set_board db g.addr (some (E.exportStr (E.newWith g.score)))) := by
        apply dbInv_set_board E db g.addr _ hdb
        intro r hrm hra s' hs'
        injection hs' with hss
        subst hss
        have hrg := row_eq_of_addr_eq hdb.1 gmem hrm hra
        rw [hrg]
        refine ⟨E.newWith g.score, hE.load_exportStr _, ?_⟩
        rw [hE.newWith_old]
        exact le_max_left _ _
      exact mono_trans (mono_set_board db g.addr _) (run_turn_mono E hE _ hinv1 g.gid)

theorem lines_next_mono {B : Type} (E : Engine B) (hE : EngineOK E) (db : Db)
    (hdb : dbInv E db) (gid : Nat) :
    dbScoreMono db (lines_next E db gid).1 := by
  rw [lines_next]
  cases hg : getGameByGid db gid with
  | none => exact mono_refl db
  | some g =>
    dsimp only
    cases hb : g.board with
    | none => exact mono_refl db
    | some s =>
      dsimp only
      cases hl : E.load s with
      | error e => exact mono_refl db
      | ok b =>
        dsimp only
        have gmem : g ∈ db := List.mem_of_find?_eq_some hg
        obtain ⟨b', hl', hle0⟩ := hdb.2 g gmem s hb
        rw [hl] at hl'
        injection hl' with he
        subst he
        have hle : g.score ≤ max (E.old_score (E.next b)) (E.score (E.next b)) := by
          refine hle0.trans (max_le_max ?_ (hE.next_score b))
          rw [hE.next_old]
        have hinv1 : dbInv E (set_board db g.addr (some (E.exportStr (E.next b)))) := by
          apply dbInv_set_board E db g.addr _ hdb
          intro r hrm hra s' hs'
          injection hs' with hss
          subst hss
          have hrg := row_eq_of_addr_eq hdb.1 gmem hrm hra
          subst hrg
          exact ⟨E.next b, hE.load_exportStr _, hle⟩
        exact mono_trans (mono_set_board db g.addr _) (run_turn_mono E hE _ hinv1 gid)

/-- Claim C8: under the engine guarantees (`EngineOK`) and on a reachable
games table (`dbInv`), no operation of the module ever decreases a player's
stored score: `filter_messages` (which overwrites the score only when the
board's running score strictly exceeds it), `_run_turn` (which overwrites
only when the computed final score strictly exceeds the carried
`old_score`), `lines_play` and `lines_next` (whose own writes touch no
score) all leave every stored score at least as large as before. -/
theorem spec_C8 {B : Type} (E : Engine B) (hE : EngineOK E) (db : Db) (hdb : dbInv E db) :
    (∀ gid text, dbScoreMono db (filter_messages E db gid text).1)
    ∧ (∀ gid, dbScoreMono db (_run_turn E db gid).1)
    ∧ (∀ hasNick addr newGid name, dbScoreMono db (lines_play E db hasNick addr newGid name).1)
    ∧ (∀ gid, dbScoreMono db (lines_next E db gid).1) :=
  ⟨fun gid text => filter_mono E hE db hdb gid text,
   fun gid => run_turn_mono E hE db hdb gid,
   fun hasNick addr newGid name => lines_play_mono E hE db hdb hasNick addr newGid name,
   fun gid => lines_next_mono E hE db hdb gid⟩

theorem engU_ok : EngineOK engU := by
  constructor
  · intro b
    show Except.ok (String.mk (List.replicate b 'x')).length = Except.ok b
    rw [show (String.mk (List.replicate b 'x')).length = b from by
      show (List.replicate b 'x').length = b
      simp]
  · intro b t b' h
    simp [engU] at h
  · intro b t b' h
    simp [engU] at h
  · intro b
    exact le_refl _
  · intro b
    rfl
  · intro s
    rfl

theorem demoDb_inv : dbInv engU demoDb := by
  constructor
  · decide
  · intro g hg
    simp only [demoDb, List.mem_cons, List.not_mem_nil, or_false] at hg
    subst hg
    intro s hs
    injection hs with hss
    subst hss
    exact ⟨7, rfl, by decide⟩

/-- Witness for C8: the four monotonicity statements instantiated on a
concrete engine and games table satisfying the hypotheses. -/
theorem spec_C8_witness :
    EngineOK engU ∧ dbInv engU demoDb
      ∧ dbScoreMono demoDb (filter_messages engU demoDb 1 "a1b2").1
      ∧ dbScoreMono demoDb (_run_turn engU demoDb 1).1
      ∧ dbScoreMono demoDb (lines_play engU demoDb true "alice" 9 "Alice").1
      ∧ dbScoreMono demoDb (lines_next engU demoDb 1).1 := by
  have h := spec_C8 engU engU_ok demoDb demoDb_inv
  exact ⟨engU_ok, demoDb_inv, h.1 1 "a1b2", h.2.1 1,
    h.2.2.1 true "alice" 9 "Alice", h.2.2.2 1⟩
